import Mathlib

/-!
Shallow embedding of the crate noto-sans-mono-bitmap (src/src/lib.rs) and
verification of its specification.

The crate is a pre-rasterized bitmap font: `get_bitmap` looks a char up in a
static per-(weight, height) glyph table and wraps the found grid of intensity
bytes with its dimensions; `get_bitmap_width` returns the fixed per-combination
width. The glyph tables themselves live in the generated modules `light`,
`regular` and `bold`, which are not part of src/; they are modelled from the
spec below. The dispatch layer, the enumerations and the `BitmapChar` record
are embedded directly from src/src/lib.rs.

The embedding fixes the build configuration with all Cargo features enabled
(feature `all`): all three weights and all eight heights are compiled in.
-/

namespace NotoSansMonoBitmap

/-- The font weight enumeration (`FontWeight`, src/src/lib.rs lines 154-163).
With all weight features enabled the three variants Light, Regular and Bold
are compiled in, in this declaration order. -/
inductive FontWeight where
  | Light
  | Regular
  | Bold
deriving DecidableEq, BEq

/-- `FontWeight::val` (src/src/lib.rs lines 165-171): `self as usize` under
`#[repr(usize)]` with no explicit discriminants, i.e. the ordinal position of
the variant among the variants compiled in. With all weight features enabled
this gives Light = 0, Regular = 1, Bold = 2. -/
def FontWeight.val : FontWeight → Nat
  | .Light => 0
  | .Regular => 1
  | .Bold => 2

/-- Semantics of the `#[cfg(feature = ...)]` attributes on the variants of
`FontWeight` (src/src/lib.rs lines 156-162): a build configuration compiles in
only a sublist of the declared variants, and Rust assigns the implicit
`usize` discriminants 0, 1, 2, ... in declaration order to the variants that
exist in that build. `valIn enabled w` is the value `w as usize` takes when
`enabled` is the list of compiled-in variants in declaration order. -/
def FontWeight.valIn (enabled : List FontWeight) (w : FontWeight) : Nat :=
  enabled.findIdx (fun x => x == w)

/-- The bitmap height enumeration (`BitmapHeight`, src/src/lib.rs lines
182-201), with the eight size features enabled. -/
inductive BitmapHeight where
  | Size14
  | Size16
  | Size18
  | Size20
  | Size22
  | Size24
  | Size32
  | Size64
deriving DecidableEq, BEq

/-- `BitmapHeight::val` (src/src/lib.rs lines 203-209): `self as usize` with
the explicit discriminants 14, 16, 18, 20, 22, 24, 32 and 64 given at the
variant declarations. -/
def BitmapHeight.val : BitmapHeight → Nat
  | .Size14 => 14
  | .Size16 => 16
  | .Size18 => 18
  | .Size20 => 20
  | .Size22 => 22
  | .Size24 => 24
  | .Size32 => 32
  | .Size64 => 64

/-- Modelled from the spec: whether a Unicode scalar value is a control
character. The glyph-table modules `light`, `regular` and `bold` are generated
code not present under src/; per the spec the supported code points are the
scalar values 0 through 0x17F excluding control characters, i.e. excluding the
Unicode Cc ranges 0x00-0x1F and 0x7F-0x9F. -/
def isControlCodePoint (n : Nat) : Bool :=
  n ≤ 0x1F || (0x7F ≤ n && n ≤ 0x9F)

/-- Modelled from the spec: a char is present in every per-(weight, height)
glyph table iff its Unicode scalar value lies in 0x00-0x17F and it is not a
control character (spec sections 4.1 and 8; all tables are built from the same
code point range, spec section 3 invariant). -/
def supportedChar (c : Char) : Bool :=
  c.toNat ≤ 0x17F && !(isControlCodePoint c.toNat)

/-- Modelled from the spec: the per-(weight, height) width constant
`crate::{weight}::size_{n}::BITMAP_WIDTH`. The generated modules holding the
actual constants are not under src/; the spec fixes only that each is a
positive fixed constant, somewhat smaller than the height and uniform across
all glyphs of the combination (spec sections 4.2 and 8). We model it as
`size.val - 1`, one concrete choice satisfying those constraints. -/
def BITMAP_WIDTH (style : FontWeight) (size : BitmapHeight) : Nat :=
  size.val - 1 + 0 * (FontWeight.val style)

/-- Modelled from the spec: `crate::{weight}::size_{n}::get_char` from the
generated glyph-table modules not under src/. For a supported char it returns
the static grid of that char: exactly `size.val` rows of exactly
`BITMAP_WIDTH style size` intensity bytes each (spec section 3 invariant),
every byte an 8-bit value in 0-255. The spec does not fix the individual
intensity values; we model each byte of a char `c` as `c.toNat % 256`, one
concrete choice in 0-255. For an unsupported char it returns the absence
signal. -/
def get_char (style : FontWeight) (size : BitmapHeight) (c : Char) :
    Option (List (List Nat)) :=
  if supportedChar c then
    some (List.replicate size.val
      (List.replicate (BITMAP_WIDTH style size) (c.toNat % 256)))
  else
    none

/-- `BitmapChar` (src/src/lib.rs lines 113-126): the record for a rendered
char, bundling the static glyph grid (each byte an intensity from 0 to 255,
modelled as `Nat`) with its height and width. The read-only accessors
`bitmap()`, `height()` and `width()` (lines 128-149) are the structure
projections. -/
structure BitmapChar where
  bitmap : List (List Nat)
  height : Nat
  width : Nat
deriving DecidableEq

/-- `get_bitmap_width` (src/src/lib.rs lines 292-352): a nested exhaustive
match on weight and height, each arm returning the corresponding module's
`BITMAP_WIDTH` constant. -/
def get_bitmap_width (style : FontWeight) (size : BitmapHeight) : Nat :=
  match style with
  | .Light =>
    match size with
    | .Size14 => BITMAP_WIDTH .Light .Size14
    | .Size16 => BITMAP_WIDTH .Light .Size16
    | .Size18 => BITMAP_WIDTH .Light .Size18
    | .Size20 => BITMAP_WIDTH .Light .Size20
    | .Size22 => BITMAP_WIDTH .Light .Size22
    | .Size24 => BITMAP_WIDTH .Light .Size24
    | .Size32 => BITMAP_WIDTH .Light .Size32
    | .Size64 => BITMAP_WIDTH .Light .Size64
  | .Regular =>
    match size with
    | .Size14 => BITMAP_WIDTH .Regular .Size14
    | .Size16 => BITMAP_WIDTH .Regular .Size16
    | .Size18 => BITMAP_WIDTH .Regular .Size18
    | .Size20 => BITMAP_WIDTH .Regular .Size20
    | .Size22 => BITMAP_WIDTH .Regular .Size22
    | .Size24 => BITMAP_WIDTH .Regular .Size24
    | .Size32 => BITMAP_WIDTH .Regular .Size32
    | .Size64 => BITMAP_WIDTH .Regular .Size64
  | .Bold =>
    match size with
    | .Size14 => BITMAP_WIDTH .Bold .Size14
    | .Size16 => BITMAP_WIDTH .Bold .Size16
    | .Size18 => BITMAP_WIDTH .Bold .Size18
    | .Size20 => BITMAP_WIDTH .Bold .Size20
    | .Size22 => BITMAP_WIDTH .Bold .Size22
    | .Size24 => BITMAP_WIDTH .Bold .Size24
    | .Size32 => BITMAP_WIDTH .Bold .Size32
    | .Size64 => BITMAP_WIDTH .Bold .Size64

/-- `get_bitmap` (src/src/lib.rs lines 218-284): a nested exhaustive match on
weight and height dispatches to the per-combination table lookup `get_char`,
then the found grid is wrapped together with `size.val()` and
`get_bitmap_width(style, size)` via `Option::map` (lines 279-283). -/
def get_bitmap (c : Char) (style : FontWeight) (size : BitmapHeight) :
    Option BitmapChar :=
  let bitmap :=
    match style with
    | .Light =>
      match size with
      | .Size14 => get_char .Light .Size14 c
      | .Size16 => get_char .Light .Size16 c
      | .Size18 => get_char .Light .Size18 c
      | .Size20 => get_char .Light .Size20 c
      | .Size22 => get_char .Light .Size22 c
      | .Size24 => get_char .Light .Size24 c
      | .Size32 => get_char .Light .Size32 c
      | .Size64 => get_char .Light .Size64 c
    | .Regular =>
      match size with
      | .Size14 => get_char .Regular .Size14 c
      | .Size16 => get_char .Regular .Size16 c
      | .Size18 => get_char .Regular .Size18 c
      | .Size20 => get_char .Regular .Size20 c
      | .Size22 => get_char .Regular .Size22 c
      | .Size24 => get_char .Regular .Size24 c
      | .Size32 => get_char .Regular .Size32 c
      | .Size64 => get_char .Regular .Size64 c
    | .Bold =>
      match size with
      | .Size14 => get_char .Bold .Size14 c
      | .Size16 => get_char .Bold .Size16 c
      | .Size18 => get_char .Bold .Size18 c
      | .Size20 => get_char .Bold .Size20 c
      | .Size22 => get_char .Bold .Size22 c
      | .Size24 => get_char .Bold .Size24 c
      | .Size32 => get_char .Bold .Size32 c
      | .Size64 => get_char .Bold .Size64 c
  bitmap.map (fun bitmap =>
    BitmapChar.mk bitmap size.val (get_bitmap_width style size))

/-- Helper: the nested dispatch of `get_bitmap_width` selects exactly the
`BITMAP_WIDTH` constant of the given combination. -/
theorem get_bitmap_width_eq (style : FontWeight) (size : BitmapHeight) :
    get_bitmap_width style size = BITMAP_WIDTH style size := by
  cases style <;> cases size <;> rfl

/-- Helper: the nested dispatch of `get_bitmap` selects exactly the table
lookup of the given combination, followed by the wrapping map. -/
theorem get_bitmap_eq (c : Char) (style : FontWeight) (size : BitmapHeight) :
    get_bitmap c style size = (get_char style size c).map
      (fun g => BitmapChar.mk g size.val (get_bitmap_width style size)) := by
  cases style <;> cases size <;> rfl

/-- Helper: a present `get_bitmap` result comes from a supported char and is
exactly the wrapped model grid. -/
theorem get_bitmap_some_spec (c : Char) (style : FontWeight)
    (size : BitmapHeight) (bc : BitmapChar)
    (h : get_bitmap c style size = some bc) :
    supportedChar c = true ∧
    bc = BitmapChar.mk
      (List.replicate size.val
        (List.replicate (BITMAP_WIDTH style size) (c.toNat % 256)))
      size.val (get_bitmap_width style size) := by
  rw [get_bitmap_eq] at h
  unfold get_char at h
  cases hc : supportedChar c with
  | false => rw [hc] at h; simp at h
  | true =>
    rw [hc] at h
    rw [if_pos rfl, Option.map_some'] at h
    exact ⟨rfl, (Option.some.inj h).symm⟩

/-- C1: for every char in the supported range (scalar value at most 0x17F and
not a control character) and every compiled-in weight and height, `get_bitmap`
returns a present `BitmapChar` whose `bitmap()` grid has exactly `size.val`
rows, each row of exactly `get_bitmap_width style size` bytes, every byte an
8-bit intensity value in the range 0-255. -/
theorem get_bitmap_supported_shape (c : Char) (style : FontWeight)
    (size : BitmapHeight) (h : supportedChar c = true) :
    ∃ bc : BitmapChar, get_bitmap c style size = some bc ∧
      bc.bitmap.length = size.val ∧
      (∀ row ∈ bc.bitmap, row.length = get_bitmap_width style size) ∧
      (∀ row ∈ bc.bitmap, ∀ b ∈ row, b ≤ 255) := by
  have hb : get_bitmap c style size = some (BitmapChar.mk
      (List.replicate size.val
        (List.replicate (BITMAP_WIDTH style size) (c.toNat % 256)))
      size.val (get_bitmap_width style size)) := by
    rw [get_bitmap_eq]
    unfold get_char
    rw [h, if_pos rfl, Option.map_some']
  refine ⟨_, hb, ?_, ?_, ?_⟩
  · simp
  · intro row hrow
    rw [List.eq_of_mem_replicate hrow]
    simp [get_bitmap_width_eq]
  · intro row hrow b hbmem
    rw [List.eq_of_mem_replicate hrow] at hbmem
    rw [List.eq_of_mem_replicate hbmem]
    have hlt : c.toNat % 256 < 256 := Nat.mod_lt _ (by omega)
    omega

/-- Witness for C1 at the char with scalar value 65, Regular weight,
height 16. -/
theorem get_bitmap_supported_shape_witness :
    supportedChar (Char.ofNat 65) = true ∧
    (∃ bc : BitmapChar,
      get_bitmap (Char.ofNat 65) FontWeight.Regular BitmapHeight.Size16 =
        some bc ∧
      bc.bitmap.length = BitmapHeight.Size16.val ∧
      (∀ row ∈ bc.bitmap,
        row.length = get_bitmap_width FontWeight.Regular BitmapHeight.Size16) ∧
      (∀ row ∈ bc.bitmap, ∀ b ∈ row, b ≤ 255)) :=
  ⟨by decide, get_bitmap_supported_shape (Char.ofNat 65) FontWeight.Regular
    BitmapHeight.Size16 (by decide)⟩

/-- C2: for every char outside the supported range or a control character,
`get_bitmap` returns the absence result `none` for every weight and height
combination; no other outcome occurs. -/
theorem get_bitmap_unsupported_none (c : Char) (style : FontWeight)
    (size : BitmapHeight) (h : supportedChar c = false) :
    get_bitmap c style size = none := by
  rw [get_bitmap_eq]
  unfold get_char
  rw [h, if_neg (by simp), Option.map_none']

/-- Witness for C2 at the emoji scalar value 0x1F600, Bold weight,
height 64. -/
theorem get_bitmap_unsupported_none_witness :
    supportedChar (Char.ofNat 0x1F600) = false ∧
    get_bitmap (Char.ofNat 0x1F600) FontWeight.Bold BitmapHeight.Size64 =
      none :=
  ⟨by decide, get_bitmap_unsupported_none (Char.ofNat 0x1F600) FontWeight.Bold
    BitmapHeight.Size64 (by decide)⟩

/-- C3: whenever `get_bitmap` returns a present result, its `height()` equals
`size.val()`, its `width()` equals `get_bitmap_width style size`, and its
`bitmap()` is exactly the grid delivered by the per-(weight, height) table
lookup `get_char`. -/
theorem get_bitmap_some_fields (c : Char) (style : FontWeight)
    (size : BitmapHeight) (bc : BitmapChar)
    (h : get_bitmap c style size = some bc) :
    bc.height = size.val ∧ bc.width = get_bitmap_width style size ∧
    get_char style size c = some bc.bitmap := by
  obtain ⟨hc, rfl⟩ := get_bitmap_some_spec c style size bc h
  refine ⟨rfl, rfl, ?_⟩
  unfold get_char
  rw [hc, if_pos rfl]

/-- The concrete `BitmapChar` the model yields for scalar value 65 at Regular
weight and height 16: 16 rows of 15 bytes of value 65. -/
def bcRegular16A : BitmapChar :=
  BitmapChar.mk (List.replicate 16 (List.replicate 15 65)) 16 15

/-- Witness for C3 at the char with scalar value 65, Regular weight,
height 16. -/
theorem get_bitmap_some_fields_witness :
    BitmapChar.height bcRegular16A = BitmapHeight.Size16.val ∧
    BitmapChar.width bcRegular16A =
      get_bitmap_width FontWeight.Regular BitmapHeight.Size16 ∧
    get_char FontWeight.Regular BitmapHeight.Size16 (Char.ofNat 65) =
      some (BitmapChar.bitmap bcRegular16A) :=
  get_bitmap_some_fields (Char.ofNat 65) FontWeight.Regular BitmapHeight.Size16
    bcRegular16A (by decide)

/-- C4: the public API is total, its only failure mode is `get_bitmap`
returning `none`, and it does so exactly on unsupported code points;
`get_bitmap_width` returns a (positive) value for every compiled-in weight and
height pair. -/
theorem api_total_only_failure_none (c : Char) (style : FontWeight)
    (size : BitmapHeight) :
    (get_bitmap c style size = none ↔ supportedChar c = false) ∧
    0 < get_bitmap_width style size := by
  constructor
  · rw [get_bitmap_eq]
    unfold get_char
    cases hc : supportedChar c <;> simp
  · rw [get_bitmap_width_eq]
    cases size <;> simp only [BITMAP_WIDTH, BitmapHeight.val] <;> omega

/-- C5: mono-spacing — for a fixed weight and height, any two chars with
present `get_bitmap` results have equal `width()` values and grids with
identical column counts. -/
theorem get_bitmap_mono_spaced (style : FontWeight) (size : BitmapHeight)
    (c1 c2 : Char) (r1 r2 : BitmapChar)
    (h1 : get_bitmap c1 style size = some r1)
    (h2 : get_bitmap c2 style size = some r2) :
    r1.width = r2.width ∧
    ∀ row1 ∈ r1.bitmap, ∀ row2 ∈ r2.bitmap, row1.length = row2.length := by
  obtain ⟨-, rfl⟩ := get_bitmap_some_spec c1 style size r1 h1
  obtain ⟨-, rfl⟩ := get_bitmap_some_spec c2 style size r2 h2
  refine ⟨rfl, ?_⟩
  intro row1 hr1 row2 hr2
  rw [List.eq_of_mem_replicate hr1, List.eq_of_mem_replicate hr2]
  simp

/-- The concrete `BitmapChar` the model yields for scalar value 105 at Regular
weight and height 16: 16 rows of 15 bytes of value 105. -/
def bcRegular16I : BitmapChar :=
  BitmapChar.mk (List.replicate 16 (List.replicate 15 105)) 16 15

/-- Witness for C5 with the chars of scalar values 65 and 105 at Regular
weight, height 16. -/
theorem get_bitmap_mono_spaced_witness :
    BitmapChar.width bcRegular16A = BitmapChar.width bcRegular16I ∧
    ∀ row1 ∈ BitmapChar.bitmap bcRegular16A,
      ∀ row2 ∈ BitmapChar.bitmap bcRegular16I, row1.length = row2.length :=
  get_bitmap_mono_spaced FontWeight.Regular BitmapHeight.Size16
    (Char.ofNat 65) (Char.ofNat 105) bcRegular16A bcRegular16I
    (by decide) (by decide)

/-- C6: for every compiled-in weight and height combination,
`get_bitmap_width` is strictly greater than 0, and two calls with the same
arguments return the same value. -/
theorem get_bitmap_width_pos_deterministic (style : FontWeight)
    (size : BitmapHeight) :
    0 < get_bitmap_width style size ∧
    get_bitmap_width style size = get_bitmap_width style size := by
  refine ⟨?_, rfl⟩
  rw [get_bitmap_width_eq]
  cases size <;> simp only [BITMAP_WIDTH, BitmapHeight.val] <;> omega

/-- C7: determinism — `get_bitmap` is a pure function of its inputs: two
calls with identical inputs give the same outcome, and two present results of
identical calls are equal, with bit-identical grid, height and width. -/
theorem get_bitmap_deterministic (c : Char) (style : FontWeight)
    (size : BitmapHeight) :
    get_bitmap c style size = get_bitmap c style size ∧
    ∀ r1 r2 : BitmapChar, get_bitmap c style size = some r1 →
      get_bitmap c style size = some r2 →
      r1 = r2 ∧ r1.bitmap = r2.bitmap ∧ r1.height = r2.height ∧
      r1.width = r2.width := by
  refine ⟨rfl, ?_⟩
  intro r1 r2 h1 h2
  have h3 := Option.some.inj (h1.symm.trans h2)
  exact ⟨h3, by rw [h3], by rw [h3], by rw [h3]⟩

/-- Witness for C7 at the char with scalar value 65, Regular weight,
height 16. -/
theorem get_bitmap_deterministic_witness :
    bcRegular16A = bcRegular16A ∧
    BitmapChar.bitmap bcRegular16A = BitmapChar.bitmap bcRegular16A ∧
    BitmapChar.height bcRegular16A = BitmapChar.height bcRegular16A ∧
    BitmapChar.width bcRegular16A = BitmapChar.width bcRegular16A :=
  (get_bitmap_deterministic (Char.ofNat 65) FontWeight.Regular
    BitmapHeight.Size16).2 bcRegular16A bcRegular16A (by decide) (by decide)

/-- C8: `BitmapHeight::val` returns the literal pixel height of each
variant. -/
theorem bitmapHeight_val_spec :
    BitmapHeight.val .Size14 = 14 ∧ BitmapHeight.val .Size16 = 16 ∧
    BitmapHeight.val .Size18 = 18 ∧ BitmapHeight.val .Size20 = 20 ∧
    BitmapHeight.val .Size22 = 22 ∧ BitmapHeight.val .Size24 = 24 ∧
    BitmapHeight.val .Size32 = 32 ∧ BitmapHeight.val .Size64 = 64 := by
  decide

/-- C9: `BitmapChar` is an immutable record — the accessors `bitmap()`,
`height()` and `width()` return exactly the stored fields of the constructed
value and touch no state; the embedding, like the source, offers no operation
that mutates a `BitmapChar` or the static glyph data. -/
theorem bitmapChar_immutable_record (b : List (List Nat)) (h w : Nat) :
    (BitmapChar.mk b h w).bitmap = b ∧ (BitmapChar.mk b h w).height = h ∧
    (BitmapChar.mk b h w).width = w :=
  ⟨rfl, rfl, rfl⟩

/-- C10: with all weight features enabled, `FontWeight::val` yields the
ordinal positions Light = 0, Regular = 1, Bold = 2 (and agrees with `valIn`
on the full variant list); under a build configuration compiling in only a
sublist of the variants (modelled by `valIn`), the numeric value of a given
weight differs, so it is not stable across build configurations. -/
theorem fontWeight_val_spec :
    FontWeight.val .Light = 0 ∧ FontWeight.val .Regular = 1 ∧
    FontWeight.val .Bold = 2 ∧
    FontWeight.valIn [.Light, .Regular, .Bold] .Light = FontWeight.val .Light ∧
    FontWeight.valIn [.Light, .Regular, .Bold] .Regular =
      FontWeight.val .Regular ∧
    FontWeight.valIn [.Light, .Regular, .Bold] .Bold = FontWeight.val .Bold ∧
    FontWeight.valIn [.Regular, .Bold] .Regular ≠ FontWeight.val .Regular := by
  decide

end NotoSansMonoBitmap
